import Mathlib

/-!
Verification development for the madevent event-sourcing engine.

The definitions below are a shallow embedding of the Rust sources:
  * `src/madevent/src/sender.rs`   — `Sender::send` append protocol,
  * `src/madevent/src/cursor.rs`   — keyset pagination engine (`Query`),
  * `src/madevent/src/event.rs`    — `Event`, `EventCursor`, `to_data`, cursor codec,
  * `src/madevent/src/consumer.rs` — `Consumer::stream` poll loop and `Consumer::ack`.

Machine integers (u16/u32) are modelled as `Nat` with explicit reduction
modulo 2^16 where Rust wrapping arithmetic matters.  The SQLite store is a
list of rows; a transaction is a function from the store to a result plus
the committed store (rollback returns the original store unchanged).
-/

deriving instance DecidableEq for Except

namespace Madevent

/-- Reduction of a `Nat` to the range of a Rust `u16` (wrapping semantics). -/
def u16Mod (n : Nat) : Nat := n % 65536

/-- One row of the `event` table.  Field layout follows the Rust `Event`
struct of `event.rs`; the `topic` and `tenant` columns are present in the
physical schema (spec section 6) and are read by the consumer queries, so
they are carried on the row as well. -/
structure Event where
  id : String
  name : String
  aggregate : String
  version : Nat
  data : List Nat
  metadata : Option (List Nat)
  topic : String
  tenant : Option String
  timestamp : Nat
deriving Repr, DecidableEq

/-- The event table, in insertion order. -/
abbrev Store := List Event

/-- Test whether a row with the given `(aggregate, version)` pair exists:
the conflict target of the `UNIQUE(aggregate, version)` constraint. -/
def hasAggVersion (store : Store) (a : String) (v : Nat) : Bool :=
  store.any fun e => e.aggregate == a && e.version == v

/-- Multi-row `INSERT ... ON CONFLICT (aggregate, version) DO NOTHING`:
rows are processed left to right and a row is dropped when its
`(aggregate, version)` pair already exists (including pairs introduced by
earlier rows of the same statement). -/
def insertOnConflict (store : Store) (rows : List Event) : Store :=
  rows.foldl
    (fun s r => if hasAggVersion s r.aggregate r.version then s else s ++ [r]) store

/-- The rows of `rows` that survive `insertOnConflict` into `store`. -/
def keptRows (store : Store) : List Event → List Event
  | [] => []
  | r :: rs =>
    if hasAggVersion store r.aggregate r.version then keptRows store rs
    else r :: keptRows (store ++ [r]) rs

/-- One staged event of a `Sender` batch: `(id, name, data, metadata)`,
exactly the tuple pushed by `Sender::event_with_metadata_opt`. -/
structure StagedEvent where
  id : String
  name : String
  data : List Nat
  metadata : Option (List Nat)
deriving Repr, DecidableEq

/-- The `Sender` builder of `sender.rs`: aggregate, optimistic
`original_version` (a u16, default 0) and the staged batch in order. -/
structure Sender where
  aggregate : String
  original_version : Nat
  events : List StagedEvent
deriving Repr, DecidableEq

/-- The rows bound by `Sender::send`'s `push_values` closure: the k-th
staged event is inserted with `version = ++v` starting from
`original_version`, with u16 wrapping on each increment.  The insert
statement does not set `topic` or `tenant`; `timestamp` is filled by the
schema from the clock, modelled by the `now` parameter. -/
def stageRows (aggregate : String) (now : Nat) : Nat → List StagedEvent → List Event
  | _, [] => []
  | ver, ev :: rest =>
    let ver1 := u16Mod (ver + 1)
    { id := ev.id, name := ev.name, aggregate := aggregate, version := ver1,
      data := ev.data, metadata := ev.metadata, topic := "", tenant := none,
      timestamp := now } :: stageRows aggregate now ver1 rest

/-- The batch of rows a `Sender` inserts. -/
def Sender.rows (s : Sender) (now : Nat) : List Event :=
  stageRows s.aggregate now s.original_version s.events

/-- Errors surfaced by `Sender::send` (backend errors are not modelled:
the executor is assumed available). -/
inductive SenderError where
  | invalidOriginalVersion
deriving Repr, DecidableEq

/-- Fold step computing a minimal-timestamp row (first row wins ties):
the `SELECT ... ORDER BY timestamp ASC LIMIT 1` of `Sender::send`. -/
def minByTs (acc : Option Event) (e : Event) : Option Event :=
  match acc with
  | none => some e
  | some b => if e.timestamp < b.timestamp then some e else some b

/-- The row read back by the check of `Sender::send`, i.e. the
`ORDER BY timestamp ASC LIMIT 1` result over the filtered rows. -/
def selectNext (store : Store) (a : String) (v : Nat) : Option Event :=
  (store.filter fun e => e.aggregate == a && e.version == v).foldl minByTs none

/-- The body of the transaction opened by `Sender::send`: multi-row insert
with conflict-do-nothing, then the optimistic check comparing the id of
the row found at `(aggregate, original_version + 1)` with the id of the
first staged event.  An `error` result means the code path that rolls the
transaction back; `ok` carries the store to be committed. -/
def Sender.sendTx (s : Sender) (now : Nat) (store : Store) : Except SenderError Store :=
  let store2 := insertOnConflict store (s.rows now)
  let next := selectNext store2 s.aggregate (u16Mod (s.original_version + 1))
  let invalid :=
    match next, s.events.head? with
    | some n, some c => n.id != c.id
    | _, _ => false
  if invalid then .error .invalidOriginalVersion else .ok store2

/-- `Sender::send`: runs the transaction; on `InvalidOriginalVersion` the
transaction is rolled back, so the visible store is the original one;
otherwise the transaction commits. -/
def Sender.send (s : Sender) (now : Nat) (store : Store) :
    Except SenderError Unit × Store :=
  match s.sendTx now store with
  | .ok st => (.ok (), st)
  | .error e => (.error e, store)

/-! ### Cursor engine: page arguments and SQL fragments (`cursor.rs`) -/

/-- Logical order of a `Query` (`Order` in `cursor.rs`, default `Asc`). -/
inductive Order where
  | Asc
  | Desc
deriving Repr, DecidableEq

/-- Page arguments (`Args` in `cursor.rs`).  Limits are u16 values; the
cursors are the opaque base64 strings. -/
structure Args where
  first : Option Nat
  after : Option String
  last : Option Nat
  before : Option String
deriving Repr, DecidableEq

/-- `Query::is_backward`: backward exactly when `last` or `before` is set
while both `first` and `after` are unset. -/
def isBackwardArgs (a : Args) : Bool :=
  (a.last.isSome || a.before.isSome) && !a.first.isSome && !a.after.isSome

/-- The `(limit, cursor)` pair chosen at the top of `Query::build`:
`(last | before)` with default limit 40 when backward, else
`(first | after)` with default limit 40. -/
def chosen (a : Args) : Nat × Option String :=
  if isBackwardArgs a then (a.last.getD 40, a.before)
  else (a.first.getD 40, a.after)

/-- The comparison sign of `Query::build_cursor_expr`. -/
def cursorSign (order : Order) (backward : Bool) : String :=
  match order, backward with
  | .Asc, true => "<"
  | .Desc, false => "<"
  | .Asc, false => ">"
  | .Desc, true => ">"

/-- The direction token of the `ORDER BY` clause in `Query::build`. -/
def orderToken (order : Order) (backward : Bool) : String :=
  match order, backward with
  | .Asc, true => "DESC"
  | .Desc, false => "DESC"
  | .Asc, false => "ASC"
  | .Desc, true => "ASC"

/-- `Query::build_cursor_expr`: for keys `k :: rest` at bind position
`pos` the emitted text is `k sign $pos` when `rest` is empty and otherwise
`k sign $pos OR (k = $pos AND rest-expr)` — note that the recursive
`rest-expr` is spliced in without parentheses of its own.  The source
panics on an empty key list (`keys.remove(0)`); it is never called so. -/
def buildCursorExpr (order : Order) (backward : Bool) : List String → Nat → String
  | [], _ => ""
  | [k], pos => k ++ " " ++ cursorSign order backward ++ " $" ++ Nat.repr pos
  | k :: k2 :: rest, pos =>
    k ++ " " ++ cursorSign order backward ++ " $" ++ Nat.repr pos ++
      " OR (" ++ k ++ " = $" ++ Nat.repr pos ++ " AND " ++
      buildCursorExpr order backward (k2 :: rest) (pos + 1) ++ ")"

/-- Substring test used for `self.qb.sql().contains(" WHERE ")`. -/
def containsSub (s pat : String) : Bool :=
  (s.toList.tails.any fun t => pat.toList.isPrefixOf t)

/-- The SQL text of `Query::build` before the `LIMIT` word: the base
SELECT, then (when a cursor is present) the keyset predicate joined with
`AND (...)` if the base SQL already contains `" WHERE "`, then the
`ORDER BY` clause listing every ordering key with the direction token. -/
def buildSqlPre (baseSql : String) (order : Order) (a : Args) (keys : List String)
    (argCount : Nat) : String :=
  let backward := isBackwardArgs a
  let cursor := (chosen a).2
  let sql1 :=
    if cursor.isSome then
      let ce := buildCursorExpr order backward keys (argCount + 1)
      if containsSub baseSql " WHERE " then baseSql ++ " AND (" ++ ce ++ ")"
      else baseSql ++ " WHERE " ++ ce
    else baseSql
  let tok := orderToken order backward
  let orderExpr := String.intercalate ", " (keys.map fun k => k ++ " " ++ tok)
  sql1 ++ " ORDER BY " ++ orderExpr

/-- The full SQL text of `Query::build`, ending in
`LIMIT (limit + 1)` where the addition is u16 arithmetic. -/
def buildSql (baseSql : String) (order : Order) (a : Args) (keys : List String)
    (argCount : Nat) : String :=
  buildSqlPre baseSql order a keys argCount ++ " LIMIT " ++
    Nat.repr (u16Mod ((chosen a).1 + 1))

/-! ### Cursor codec: CBOR encoding and base64url (`event.rs`, `cursor.rs`) -/

/-- The `EventCursor` struct of `event.rs`, with its Rust field order
`i : String`, `v : u16`, `t : u32`. -/
structure EventCursor where
  i : String
  v : Nat
  t : Nat
deriving Repr, DecidableEq

/-- `ToCursor::serialize_cursor` for `Event`. -/
def Event.serializeCursor (e : Event) : EventCursor :=
  { i := e.id, v := e.version, t := e.timestamp }

/-- UTF-8 bytes of one character. -/
def charUtf8 (c : Char) : List Nat :=
  let n := c.toNat
  if n < 128 then [n]
  else if n < 2048 then [192 + n / 64, 128 + n % 64]
  else if n < 65536 then [224 + n / 4096, 128 + n / 64 % 64, 128 + n % 64]
  else [240 + n / 262144, 128 + n / 4096 % 64, 128 + n / 64 % 64, 128 + n % 64]

/-- UTF-8 bytes of a string. -/
def utf8Bytes (s : String) : List Nat :=
  s.toList.foldr (fun c acc => charUtf8 c ++ acc) []

/-- CBOR item head for major type `major` and argument `n` (minimal-length
encoding, as written by the ciborium serializer; arguments up to u32). -/
def cborHead (major : Nat) (n : Nat) : List Nat :=
  if n < 24 then [32 * major + n]
  else if n < 256 then [32 * major + 24, n]
  else if n < 65536 then [32 * major + 25, n / 256, n % 256]
  else [32 * major + 26, n / 16777216 % 256, n / 65536 % 256, n / 256 % 256, n % 256]

/-- CBOR encoding of an unsigned integer (major type 0). -/
def cborUInt (n : Nat) : List Nat := cborHead 0 n

/-- CBOR encoding of a text string (major type 3). -/
def cborText (s : String) : List Nat :=
  cborHead 3 (utf8Bytes s).length ++ utf8Bytes s

/-- Ciborium's encoding of the `EventCursor` struct: a CBOR map of length
3 whose entries are the fields in declaration order, keyed by the field
names `"i"`, `"v"`, `"t"`. -/
def cborEventCursor (c : EventCursor) : List Nat :=
  cborHead 5 3 ++
    cborText "i" ++ cborText c.i ++
    cborText "v" ++ cborUInt c.v ++
    cborText "t" ++ cborUInt c.t

/-- The base64url alphabet (`alphabet::URL_SAFE`). -/
def b64Alphabet : List Char :=
  "ABCDEFGHIJKLMNOPQRSTUVWXYZabcdefghijklmnopqrstuvwxyz0123456789-_".toList

/-- Character for a 6-bit value. -/
def b64Char (n : Nat) : Char := (b64Alphabet.getD n '?')

/-- base64url encoding with standard padding
(`GeneralPurpose::new(&alphabet::URL_SAFE, general_purpose::PAD)`). -/
def base64urlPad : List Nat → String
  | [] => ""
  | [a] =>
    String.mk [b64Char (a / 4), b64Char (a % 4 * 16), '=', '=']
  | [a, b] =>
    String.mk [b64Char (a / 4), b64Char (a % 4 * 16 + b / 16), b64Char (b % 16 * 4), '=']
  | a :: b :: c :: rest =>
    String.mk [b64Char (a / 4), b64Char (a % 4 * 16 + b / 16),
      b64Char (b % 16 * 4 + c / 64), b64Char (c % 64)] ++ base64urlPad rest

/-- `ToCursor::to_cursor`: base64url (padded) of the ciborium encoding of
`serialize_cursor`. -/
def Event.toCursor (e : Event) : String :=
  base64urlPad (cborEventCursor e.serializeCursor)

/-- Modelled from the spec: the wire format claimed in section 6,
`base64url(pad=on, binary_encode((timestamp:u32, version:u16, id:string)))` —
a CBOR tuple (array of length 3) holding timestamp, version, id in that
order.  Stated only to compare against `Event.toCursor`. -/
def specTupleCursor (e : Event) : String :=
  base64urlPad (cborHead 4 3 ++ cborUInt e.timestamp ++ cborUInt e.version ++
    cborText e.id)

/-- Value of a base64 character, `none` for characters outside the
alphabet (including the pad). -/
def b64Val (c : Char) : Option Nat :=
  b64Alphabet.findIdx? (· == c)

/-- base64url decoding (padded input, groups of four characters). -/
def base64urlDecode : List Char → Option (List Nat)
  | [] => some []
  | c1 :: c2 :: '=' :: '=' :: [] => do
    let a ← b64Val c1
    let b ← b64Val c2
    pure [a * 4 + b / 16]
  | c1 :: c2 :: c3 :: '=' :: [] => do
    let a ← b64Val c1
    let b ← b64Val c2
    let c ← b64Val c3
    pure [a * 4 + b / 16, b % 16 * 16 + c / 4]
  | c1 :: c2 :: c3 :: c4 :: rest => do
    let a ← b64Val c1
    let b ← b64Val c2
    let c ← b64Val c3
    let d ← b64Val c4
    let tail ← base64urlDecode rest
    pure ([a * 4 + b / 16, b % 16 * 16 + c / 4, c % 4 * 64 + d] ++ tail)
  | _ => none

/-- Decode a CBOR unsigned integer, returning the value and the remaining
bytes. -/
def cborReadUInt : List Nat → Option (Nat × List Nat)
  | b :: rest =>
    if b < 24 then some (b, rest)
    else if b = 24 then
      match rest with
      | x :: r => some (x, r)
      | _ => none
    else if b = 25 then
      match rest with
      | x :: y :: r => some (x * 256 + y, r)
      | _ => none
    else if b = 26 then
      match rest with
      | x :: y :: z :: w :: r => some (((x * 256 + y) * 256 + z) * 256 + w, r)
      | _ => none
    else none
  | [] => none

/-- Decode a CBOR text string restricted to ASCII contents (the cursor
fields are ASCII: ULID ids and one-letter keys). -/
def cborReadText (bytes : List Nat) : Option (String × List Nat) := do
  match bytes with
  | b :: rest =>
    if b / 32 = 3 then do
      let (len, r) ← cborReadUInt (b % 32 :: rest)
      let chars := r.take len
      if chars.length = len && chars.all (· < 128) then
        pure (String.mk (chars.map Char.ofNat), r.drop len)
      else none
    else none
  | [] => none

/-- Decode the CBOR map written by `cborEventCursor` back to an
`EventCursor` (the shape `BindCursor::bind_cursor` deserializes). -/
def cborDecodeEventCursor (bytes : List Nat) : Option EventCursor := do
  match bytes with
  | 163 :: rest => do
    let (k1, r1) ← cborReadText rest
    let (iv, r2) ← cborReadText r1
    let (k2, r3) ← cborReadText r2
    let (vv, r4) ← cborReadUInt r3
    let (k3, r5) ← cborReadText r4
    let (tv, r6) ← cborReadUInt r5
    if k1 = "i" && k2 = "v" && k3 = "t" && r6 = [] then
      pure { i := iv, v := vv, t := tv }
    else none
  | _ => none

/-- `BindCursor::bind_cursor`'s decoding pipeline: base64url decode, then
CBOR decode to an `EventCursor`.  `none` is the `BadCursor` error. -/
def decodeCursor (s : String) : Option EventCursor := do
  let bytes ← base64urlDecode s.toList
  cborDecodeEventCursor bytes

/-! ### Semantics of the generated WHERE text

The keyset predicate reaches the database as SQL text, so its meaning is
fixed by SQL's grammar: comparison, then `AND`, then `OR`, with
parentheses.  The small parser below implements exactly that grammar and
is applied to the text `buildCursorExpr` emits. -/

/-- An SQL value bound to a comparison: the cursor binds u32/u16 integers
and TEXT ids. -/
inductive SqlVal where
  | num (n : Nat)
  | str (s : String)
deriving Repr, DecidableEq

/-- Boolean SQL expression over comparisons `key op $param`. -/
inductive SqlExpr where
  | cmp (key : String) (op : String) (param : Nat)
  | conj (a b : SqlExpr)
  | disj (a b : SqlExpr)
deriving Repr, DecidableEq

/-- Digit-string value (base 10); `none` on a non-digit. -/
def digitsToNatAux : List Char → Nat → Option Nat
  | [], acc => some acc
  | c :: rest, acc =>
    if 48 ≤ c.toNat && c.toNat ≤ 57 then
      digitsToNatAux rest (acc * 10 + (c.toNat - 48))
    else none

/-- Parse a bind-parameter token `$n`. -/
def parseParam (p : String) : Option Nat :=
  match p.toList with
  | '$' :: d :: ds => digitsToNatAux (d :: ds) 0
  | _ => none

/-- Tokenizer: splits on spaces; parentheses are their own tokens. -/
def tokAux : List Char → String → List String
  | [], cur => if cur = "" then [] else [cur]
  | c :: rest, cur =>
    if c = ' ' then
      if cur = "" then tokAux rest "" else cur :: tokAux rest ""
    else if c = '(' || c = ')' then
      if cur = "" then c.toString :: tokAux rest ""
      else cur :: c.toString :: tokAux rest ""
    else tokAux rest (cur.push c)

/-- Tokenize an SQL text. -/
def tokenize (s : String) : List String := tokAux s.toList ""

mutual

/-- Parse an `OR`-level expression. -/
def parseOrE : Nat → List String → Option (SqlExpr × List String)
  | 0, _ => none
  | fuel + 1, ts => do
    let (a, ts1) ← parseAndE fuel ts
    parseOrRest fuel a ts1

/-- Parse the `OR ...` continuations (left associative). -/
def parseOrRest : Nat → SqlExpr → List String → Option (SqlExpr × List String)
  | 0, _, _ => none
  | fuel + 1, a, ts =>
    match ts with
    | "OR" :: rest => do
      let (b, rest1) ← parseAndE fuel rest
      parseOrRest fuel (.disj a b) rest1
    | _ => some (a, ts)

/-- Parse an `AND`-level expression. -/
def parseAndE : Nat → List String → Option (SqlExpr × List String)
  | 0, _ => none
  | fuel + 1, ts => do
    let (a, ts1) ← parseAtomE fuel ts
    parseAndRest fuel a ts1

/-- Parse the `AND ...` continuations (left associative). -/
def parseAndRest : Nat → SqlExpr → List String → Option (SqlExpr × List String)
  | 0, _, _ => none
  | fuel + 1, a, ts =>
    match ts with
    | "AND" :: rest => do
      let (b, rest1) ← parseAtomE fuel rest
      parseAndRest fuel (.conj a b) rest1
    | _ => some (a, ts)

/-- Parse an atom: a parenthesized expression or `key op $n`. -/
def parseAtomE : Nat → List String → Option (SqlExpr × List String)
  | 0, _ => none
  | fuel + 1, ts =>
    match ts with
    | "(" :: rest => do
      let (e, rest1) ← parseOrE fuel rest
      match rest1 with
      | ")" :: rest2 => some (e, rest2)
      | _ => none
    | k :: op :: p :: rest =>
      if op = "<" || op = ">" || op = "=" then
        match parseParam p with
        | some n => some (.cmp k op n, rest)
        | none => none
      else none
    | _ => none

end

/-- Parse a full SQL boolean expression; all tokens must be consumed. -/
def parseSqlExpr (s : String) : Option SqlExpr :=
  match parseOrE (s.length + 10) (tokenize s) with
  | some (e, []) => some e
  | _ => none

/-- Lexicographic order on character lists (SQLite TEXT comparison for
the ASCII ids involved). -/
def strLtChars : List Char -> List Char -> Bool
  | [], [] => false
  | [], _ :: _ => true
  | _ :: _, [] => false
  | a :: as, b :: bs => if a < b then true else if b < a then false else strLtChars as bs

/-- Lexicographic order on strings. -/
def strLt (a b : String) : Bool := strLtChars a.toList b.toList

/-- Evaluate one comparison; mixed types never compare equal or ordered
(the engine only ever compares a column with a bind of its own type). -/
def evalCmp (op : String) (a b : SqlVal) : Bool :=
  match a, b with
  | .num x, .num y =>
    if op = "<" then decide (x < y)
    else if op = ">" then decide (y < x)
    else x == y
  | .str x, .str y =>
    if op = "<" then strLt x y
    else if op = ">" then strLt y x
    else x == y
  | _, _ => false

/-- Evaluate an SQL boolean expression under a column environment and a
bind-parameter assignment. -/
def evalSqlExpr (env : String → Option SqlVal) (par : Nat → Option SqlVal) :
    SqlExpr → Bool
  | .cmp k op p =>
    match env k, par p with
    | some a, some b => evalCmp op a b
    | _, _ => false
  | .conj a b => evalSqlExpr env par a && evalSqlExpr env par b
  | .disj a b => evalSqlExpr env par a || evalSqlExpr env par b

/-- Column environment of an event row for the Event ordering keys. -/
def envOf (e : Event) : String → Option SqlVal := fun k =>
  if k = "timestamp" then some (.num e.timestamp)
  else if k = "version" then some (.num e.version)
  else if k = "id" then some (.str e.id)
  else none

/-- Bind parameters appended by `BindCursor::bind_query` for `Event`:
after `argc` base binds, positions `argc+1`, `argc+2`, `argc+3` hold the
cursor's `t`, `v`, `i` fields in that order. -/
def paramsOf (argc : Nat) (c : EventCursor) : Nat → Option SqlVal := fun p =>
  if p = argc + 1 then some (.num c.t)
  else if p = argc + 2 then some (.num c.v)
  else if p = argc + 3 then some (.str c.i)
  else none

/-- The ordering keys of `Event` (`BindCursor::bing_keys`). -/
def eventKeys : List String := ["timestamp", "version", "id"]

/-- The meaning of the keyset WHERE fragment the engine emits for `Event`:
parse the emitted text with SQL precedence and evaluate it on a row. -/
def cursorPred (order : Order) (backward : Bool) (argc : Nat) (c : EventCursor)
    (e : Event) : Bool :=
  match parseSqlExpr (buildCursorExpr order backward eventKeys (argc + 1)) with
  | some ex => evalSqlExpr (envOf e) (paramsOf argc c) ex
  | none => false

/-- Modelled from the spec: the strict lexicographic keyset comparison
over `(timestamp, version, id)` that section 4.3 prescribes, in the `>`
direction (row strictly after the cursor). -/
def strictLexAfter (c : EventCursor) (e : Event) : Bool :=
  decide (c.t < e.timestamp) ||
    (e.timestamp == c.t && (decide (c.v < e.version) ||
      (e.version == c.v && strLt c.i e.id)))

/-! ### Query execution semantics -/

/-- Edge returned by the cursor engine: `{cursor, node}`. -/
structure Edge where
  cursor : String
  node : Event
deriving Repr, DecidableEq

/-- Page info (`PageInfo` in `cursor.rs`). -/
structure PageInfo where
  has_previous_page : Bool
  has_next_page : Bool
  start_cursor : Option String
  end_cursor : Option String
deriving Repr, DecidableEq

/-- Result of `Query::query`. -/
structure ReadResult where
  edges : List Edge
  page_info : PageInfo
deriving Repr, DecidableEq

/-- Strict log order on rows: the composite `(timestamp, version, id)`. -/
def keyLt (a b : Event) : Bool :=
  decide (a.timestamp < b.timestamp) ||
    (a.timestamp == b.timestamp && (decide (a.version < b.version) ||
      (a.version == b.version && strLt a.id b.id)))

/-- Insertion into a list sorted by `le`. -/
def insertBy (le : Event → Event → Bool) (e : Event) : List Event → List Event
  | [] => [e]
  | x :: xs => if le e x then e :: x :: xs else x :: insertBy le e xs

/-- Insertion sort by `le`. -/
def sortBy (le : Event → Event → Bool) (l : List Event) : List Event :=
  l.foldr (insertBy le) []

/-- Rows ordered as the emitted `ORDER BY` clause orders them: every key
with the same direction token, i.e. ascending or descending composite
key order. -/
def orderRows (order : Order) (backward : Bool) (rows : List Event) : List Event :=
  if orderToken order backward = "DESC" then sortBy (fun a b => !keyLt a b) rows
  else sortBy (fun a b => !keyLt b a) rows

/-- The row post-processing of `Query::query` after `fetch_all`: compute
`has_more`, pop the overshoot row, build edges via `to_cursor`, reverse
for backward paging, and fill the page info. -/
def queryPost (backward : Bool) (limit : Nat) (rows : List Event) : ReadResult :=
  let hasMore := decide (limit < rows.length)
  let rows1 := if hasMore then rows.dropLast else rows
  let edges := rows1.map fun e => Edge.mk e.toCursor e
  let edges := if backward then edges.reverse else edges
  let pageInfo :=
    if backward then
      { has_previous_page := hasMore, has_next_page := false,
        start_cursor := (edges.head?.map Edge.cursor), end_cursor := none }
    else
      { has_previous_page := false, has_next_page := hasMore,
        start_cursor := none, end_cursor := (edges.getLast?.map Edge.cursor) }
  { edges := edges, page_info := pageInfo }

/-- Execute a built query against the rows that satisfy the base SELECT's
own WHERE clause: apply the keyset predicate (when a cursor is present;
`none` models the `BadCursor` decode failure), order by the emitted
`ORDER BY`, truncate to the emitted `LIMIT`, then post-process.  `argc`
is the number of binds the base SELECT already holds. -/
def runQuery (order : Order) (a : Args) (argc : Nat) (baseRows : List Event) :
    Option ReadResult :=
  let backward := isBackwardArgs a
  let (limit, cursor) := chosen a
  let fetched (rows : List Event) : List Event :=
    (orderRows order backward rows).take (u16Mod (limit + 1))
  match cursor with
  | some cstr =>
    match decodeCursor cstr with
    | none => none
    | some ec =>
      let rows := baseRows.filter fun e => cursorPred order backward argc ec e
      some (queryPost backward limit (fetched rows))
  | none => some (queryPost backward limit (fetched baseRows))

/-! ### Typed payload extraction (`Event::to_data`) -/

/-- `Event::to_data::<D>`: if the stored `name` differs from the requested
type identifier the data bytes are not touched and `Ok(None)` is
returned; otherwise the bytes are handed to the ciborium decoder at type
`Option<D>`.  The external decoder is a parameter `dec`; `Except.error`
is a malformed-bytes failure. -/
def toData {α : Type} (dec : List Nat → Except Unit (Option α)) (tyName : String)
    (e : Event) : Except Unit (Option α) :=
  if e.name != tyName then .ok none
  else dec e.data

/-! ### Subscription runtime (`consumer.rs`) -/

/-- One row of the `consumer` table. -/
structure ConsumerRow where
  id : String
  worker_id : String
  cursor : Option String
  updated_at : String
deriving Repr, DecidableEq

/-- The per-stream context built by `Consumer::stream` before entering the
poll loop.  `worker_id` is `some` exactly for persistent streams. -/
structure StreamCtx where
  id : String
  worker_id : Option String
  tenant : Option String
  topic : String
deriving Repr, DecidableEq

/-- Result of one pass of the poll-loop body: the stream ends
(`terminated`, the unfold closure returns `None`), yields an edge and
advances its in-memory cursor, or found nothing and waits for the idle
interval before looping. -/
inductive PollResult where
  | terminated
  | yield (e : Edge) (next : Option String)
  | idle
deriving Repr, DecidableEq

/-- The base WHERE of the poll query:
`SELECT * FROM event WHERE topic = ?` plus `tenant = ?` when the context
carries a tenant (the source binds tenant first in that case). -/
def pollBaseFilter (ctx : StreamCtx) (e : Event) : Bool :=
  match ctx.tenant with
  | some t => e.tenant == some t && e.topic == ctx.topic
  | none => e.topic == ctx.topic

/-- Number of binds the poll query's base SELECT holds. -/
def pollArgc (ctx : StreamCtx) : Nat :=
  match ctx.tenant with
  | some _ => 2
  | none => 1

/-- One pass of the poll-loop body in `Consumer::stream`: for a
persistent stream, first re-read the consumer row
(`SELECT id FROM consumer WHERE id = ? AND worker_id = ? LIMIT 1`) and
end the stream when it is gone; then run the cursor-engine query
`forward(1, cursor)` over the topic/tenant-filtered event table and yield
its first edge, if any.  A query failure (`BadCursor`) also ends the
stream, as in the source's `let Ok(res) ... else return None`. -/
def pollStep (ctx : StreamCtx) (cursor : Option String)
    (consumers : List ConsumerRow) (events : List Event) : PollResult :=
  let fence :=
    match ctx.worker_id with
    | some w =>
      (consumers.find? fun c => c.id == ctx.id && c.worker_id == w).isSome
    | none => true
  if !fence then .terminated
  else
    let base := events.filter (pollBaseFilter ctx)
    match runQuery .Asc { first := some 1, after := cursor, last := none, before := none }
        (pollArgc ctx) base with
    | none => .terminated
    | some res =>
      match res.edges.head? with
      | some edge => .yield edge (some edge.cursor)
      | none => .idle

/-- The attach step for a `non-persistent` URL: read the tail cursor of
the log with `backward(1, None)` over `SELECT * FROM event`; no consumer
row is touched.  Returns the poll loop's starting cursor. -/
def attachNonPersistent (events : List Event) : Option (Option String) :=
  (runQuery .Asc { first := none, after := none, last := some 1, before := none }
      0 events).map
    fun r => r.edges.head?.map Edge.cursor

/-- The attach step for a `persistent` URL: upsert
`consumer(id, worker_id)` overwriting any previous `worker_id`, then load
the row's cursor.  Returns the updated table and the starting cursor. -/
def attachPersistent (id workerId : String) (consumers : List ConsumerRow) :
    List ConsumerRow × Option String :=
  let consumers1 :=
    if consumers.any (fun c => c.id == id) then
      consumers.map fun c =>
        if c.id == id then { c with worker_id := workerId } else c
    else
      consumers ++ [ConsumerRow.mk id workerId none ""]
  (consumers1, (consumers1.find? fun c => c.id == id && c.worker_id == workerId).bind
    ConsumerRow.cursor)

/-- `Consumer::ack`:
`UPDATE consumer SET cursor = ?, updated_at = datetime('now') WHERE id = ?` —
an unconditional overwrite of the row's cursor. -/
def ack (id cursor now : String) (consumers : List ConsumerRow) : List ConsumerRow :=
  consumers.map fun c =>
    if c.id == id then { c with cursor := some cursor, updated_at := now } else c

/-! ### Auxiliary definitions and concrete rows used in the statements -/

/-- Suffix test on strings (character-wise). -/
def strEndsWith (s pat : String) : Bool :=
  pat.toList.isSuffixOf s.toList

/-- The overshoot flag the engine surfaces: `has_previous_page` when
paging backward, `has_next_page` when paging forward. -/
def hasMoreFlag (backward : Bool) (r : ReadResult) : Bool :=
  if backward then r.page_info.has_previous_page else r.page_info.has_next_page

/-- Strict log order on decoded cursor keys. -/
def ecLt (a b : EventCursor) : Bool :=
  decide (a.t < b.t) ||
    (a.t == b.t && (decide (a.v < b.v) || (a.v == b.v && strLt a.i b.i)))

/-- Strict log order on encoded cursors (after decoding both). -/
def cursorLogLt (x y : String) : Bool :=
  match decodeCursor x, decodeCursor y with
  | some a, some b => ecLt a b
  | _, _ => false

/-- An event appended well before attach time: old timestamp, but its
`version` collides with the log tail's `version` and its `id` sorts after
the tail's `id`. -/
def eOld : Event :=
  { id := "Z", name := "n", aggregate := "a", version := 5, data := [],
    metadata := none, topic := "user", tenant := none, timestamp := 1 }

/-- The newest event of the log at attach time (the tail). -/
def eTail : Event :=
  { id := "A", name := "n", aggregate := "b", version := 5, data := [],
    metadata := none, topic := "user", tenant := none, timestamp := 9 }

/-- Context of a non-persistent subscription to `non-persistent://user`. -/
def ctxNP : StreamCtx :=
  { id := "c1", worker_id := none, tenant := none, topic := "user" }

/-- Page arguments asking for the largest u16 page. -/
def argsFirstMax : Args :=
  { first := some 65535, after := none, last := none, before := none }

/-- A pre-existing row at `(a, 1)`, blocking an `original_version = 0`
batch. -/
def eBlock : Event :=
  { id := "X", name := "T", aggregate := "a", version := 1, data := [],
    metadata := none, topic := "", tenant := none, timestamp := 2 }

/-- A sender that created a version gap: `original_version = 2` on an
empty aggregate inserts its single event at version 3. -/
def sGap : Sender :=
  { aggregate := "a", original_version := 2, events := [⟨"X", "T", [], none⟩] }

/-- A later batch of three events at `original_version = 0` on the same
aggregate. -/
def sBatch3 : Sender :=
  { aggregate := "a", original_version := 0,
    events := [⟨"e1", "T", [], none⟩, ⟨"e2", "T", [], none⟩, ⟨"e3", "T", [], none⟩] }

/-! ## Helper lemmas on the append protocol -/

theorem hasAggVersion_append (s1 s2 : Store) (a : String) (v : Nat) :
    hasAggVersion (s1 ++ s2) a v = (hasAggVersion s1 a v || hasAggVersion s2 a v) := by
  simp [hasAggVersion, List.any_append]

theorem hasAggVersion_iff (st : Store) (a : String) (v : Nat) :
    hasAggVersion st a v = true ↔ ∃ e ∈ st, e.aggregate = a ∧ e.version = v := by
  simp [hasAggVersion, List.any_eq_true]

theorem insertOnConflict_cons (store : Store) (r : Event) (rs : List Event) :
    insertOnConflict store (r :: rs) =
      insertOnConflict
        (if hasAggVersion store r.aggregate r.version then store else store ++ [r]) rs := rfl

theorem insertOnConflict_eq (rows : List Event) : ∀ store : Store,
    insertOnConflict store rows = store ++ keptRows store rows := by
  induction rows with
  | nil => intro store; simp [insertOnConflict, keptRows]
  | cons r rs ih =>
    intro store
    rw [insertOnConflict_cons]
    by_cases h : hasAggVersion store r.aggregate r.version = true
    · rw [if_pos h, ih]
      simp [keptRows, h]
    · rw [if_neg (by simp [h]), ih]
      simp [keptRows, h, List.append_assoc]

theorem keptRows_subset (rows : List Event) : ∀ (store : Store) (r : Event),
    r ∈ keptRows store rows → r ∈ rows := by
  induction rows with
  | nil => intro store r h; simp [keptRows] at h
  | cons x xs ih =>
    intro store r h
    simp only [keptRows] at h
    split at h
    · exact List.mem_cons_of_mem _ (ih store r h)
    · rcases List.mem_cons.mp h with h1 | h2
      · exact h1 ▸ List.mem_cons_self _ _
      · exact List.mem_cons_of_mem _ (ih _ r h2)

theorem keptRows_all (rows : List Event) : ∀ store : Store,
    (∀ r ∈ rows, hasAggVersion store r.aggregate r.version = false) →
    (rows.map fun r => (r.aggregate, r.version)).Nodup →
    keptRows store rows = rows := by
  induction rows with
  | nil => intro store _ _; rfl
  | cons x xs ih =>
    intro store h1 h2
    have hx := h1 x (List.mem_cons_self _ _)
    simp only [List.map_cons, List.nodup_cons] at h2
    simp only [keptRows, hx]
    rw [if_neg (by simp)]
    congr 1
    apply ih (store ++ [x])
    · intro r hr
      rw [hasAggVersion_append, h1 r (List.mem_cons_of_mem _ hr)]
      simp only [Bool.false_or]
      have hne : (x.aggregate, x.version) ≠ (r.aggregate, r.version) := by
        intro he
        exact h2.1 (he ▸ List.mem_map_of_mem _ hr)
      simp only [hasAggVersion, List.any_cons, List.any_nil, Bool.or_false,
        Bool.and_eq_false_iff]
      by_cases hag : x.aggregate = r.aggregate
      · right
        simp only [beq_eq_false_iff_ne, ne_eq]
        intro hv
        exact hne (by rw [hag, hv])
      · left
        simp [beq_eq_false_iff_ne, hag]
    · exact h2.2

theorem minByTs_eq_some (acc : Option Event) (e x : Event) :
    minByTs acc e = some x → x = e ∨ acc = some x := by
  cases acc with
  | none => intro h; left; exact (Option.some.inj h).symm
  | some b =>
    simp only [minByTs]
    intro h
    by_cases ht : e.timestamp < b.timestamp
    · rw [if_pos ht] at h; left; exact (Option.some.inj h).symm
    · rw [if_neg ht] at h; right; exact h

theorem minByTs_isSome (acc : Option Event) (e : Event) :
    (minByTs acc e).isSome = true := by
  cases acc with
  | none => rfl
  | some b =>
    simp only [minByTs]
    by_cases ht : e.timestamp < b.timestamp
    · rw [if_pos ht]; rfl
    · rw [if_neg ht]; rfl

theorem foldl_minByTs_mem (l : List Event) : ∀ (acc : Option Event) (x : Event),
    l.foldl minByTs acc = some x → x ∈ l ∨ acc = some x := by
  induction l with
  | nil => intro acc x h; right; exact h
  | cons e es ih =>
    intro acc x h
    rcases ih (minByTs acc e) x h with hm | he
    · left; exact List.mem_cons_of_mem _ hm
    · rcases minByTs_eq_some acc e x he with h1 | h2
      · left; exact h1 ▸ List.mem_cons_self _ _
      · right; exact h2

theorem foldl_minByTs_isSome (l : List Event) : ∀ acc : Option Event,
    acc.isSome = true → (l.foldl minByTs acc).isSome = true := by
  induction l with
  | nil => intro acc h; exact h
  | cons e es ih =>
    intro acc _
    exact ih (minByTs acc e) (minByTs_isSome acc e)

theorem selectNext_cases (st : Store) (a : String) (v : Nat) :
    (st.filter fun e => e.aggregate == a && e.version == v) = [] ∨
      ∃ x, selectNext st a v = some x ∧
        x ∈ (st.filter fun e => e.aggregate == a && e.version == v) := by
  cases hf : (st.filter fun e => e.aggregate == a && e.version == v) with
  | nil => left; rfl
  | cons y ys =>
    right
    have hs : ((y :: ys).foldl minByTs none).isSome = true := by
      show (ys.foldl minByTs (minByTs none y)).isSome = true
      exact foldl_minByTs_isSome ys _ (minByTs_isSome none y)
    rcases Option.isSome_iff_exists.mp hs with ⟨x, hx⟩
    refine ⟨x, ?_, ?_⟩
    · rw [selectNext, hf]; exact hx
    · rcases foldl_minByTs_mem (y :: ys) none x hx with hm | hn
      · exact hm
      · exact absurd hn (by simp)

/-! ## Helper lemmas on the staged rows -/

theorem stageRows_length (a : String) (now : Nat) (evs : List StagedEvent) :
    ∀ ver : Nat, (stageRows a now ver evs).length = evs.length := by
  induction evs with
  | nil => intro ver; rfl
  | cons ev rest ih => intro ver; simp [stageRows, ih]

theorem stageRows_versions (a : String) (now : Nat) (evs : List StagedEvent) :
    ∀ ver : Nat, ver + evs.length < 65536 →
      (stageRows a now ver evs).map Event.version = List.range' (ver + 1) evs.length := by
  induction evs with
  | nil => intro ver _; rfl
  | cons ev rest ih =>
    intro ver h
    simp only [List.length_cons] at h
    have h1 : u16Mod (ver + 1) = ver + 1 := Nat.mod_eq_of_lt (by omega)
    simp only [stageRows, List.map_cons, h1, List.length_cons]
    rw [List.range'_succ]
    exact congrArg (List.cons (ver + 1)) (ih (ver + 1) (by omega))

theorem stageRows_ids (a : String) (now : Nat) (evs : List StagedEvent) :
    ∀ ver : Nat, (stageRows a now ver evs).map Event.id = evs.map StagedEvent.id := by
  induction evs with
  | nil => intro ver; rfl
  | cons ev rest ih => intro ver; simp [stageRows, ih]

theorem stageRows_agg (a : String) (now : Nat) (evs : List StagedEvent) :
    ∀ (ver : Nat) (r : Event), r ∈ stageRows a now ver evs → r.aggregate = a := by
  induction evs with
  | nil => intro ver r h; simp [stageRows] at h
  | cons ev rest ih =>
    intro ver r h
    rcases List.mem_cons.mp h with h1 | h2
    · rw [h1]
    · exact ih _ r h2

theorem stageRows_pairs (a : String) (now : Nat) (evs : List StagedEvent)
    (ver : Nat) (h : ver + evs.length < 65536) :
    ((stageRows a now ver evs).map fun r => (r.aggregate, r.version)) =
      (List.range' (ver + 1) evs.length).map fun w => (a, w) := by
  have h1 : ((stageRows a now ver evs).map fun r => (r.aggregate, r.version)) =
      (stageRows a now ver evs).map fun r => (a, r.version) :=
    List.map_congr_left fun r hr => by rw [stageRows_agg a now evs ver r hr]
  rw [h1, ← stageRows_versions a now evs ver h, List.map_map]
  rfl

theorem stageRows_pairs_nodup (a : String) (now : Nat) (evs : List StagedEvent)
    (ver : Nat) (h : ver + evs.length < 65536) :
    ((stageRows a now ver evs).map fun r => (r.aggregate, r.version)).Nodup := by
  rw [stageRows_pairs a now evs ver h]
  exact (List.nodup_range' _ _).map fun w1 w2 hw => congrArg Prod.snd hw

theorem keptRows_cons_conflict (store : Store) (r : Event) (rs : List Event)
    (h : hasAggVersion store r.aggregate r.version = true) :
    keptRows store (r :: rs) = keptRows store rs := by
  simp [keptRows, h]

theorem hasAggVersion_false_of (store : Store) (a : String) (w : Nat)
    (h : ∀ e ∈ store, e.aggregate = a → e.version ≠ w) :
    hasAggVersion store a w = false := by
  cases hc : hasAggVersion store a w with
  | false => rfl
  | true =>
    obtain ⟨e, he, hea, hev⟩ := (hasAggVersion_iff _ _ _).mp hc
    exact absurd hev (h e he hea)

/-! ## C1 -/

/-- C1: the claim quantifies over every successful publish, but a publish
can succeed while silently dropping part of its batch.  Starting from an
empty store, `sGap` (original_version 2, one event) succeeds and leaves a
single row at version 3; then `sBatch3` (original_version 0, three staged
events) also succeeds, yet only two of its three rows are inserted — the
third was swallowed by `ON CONFLICT DO NOTHING` against the version-3
row — so the inserted versions are `{1, 2}`, not `{1, 2, 3}`. -/
theorem c1_publish_versions_counterexample :
    (sGap.send 5 []).1 = .ok () ∧
    (sBatch3.send 6 (sGap.send 5 []).2).1 = .ok () ∧
    sBatch3.events.length = 3 ∧
    (sBatch3.send 6 (sGap.send 5 []).2).2.length = (sGap.send 5 []).2.length + 2 := by
  decide

/-- C1 (amended): provided the event table holds no row of the aggregate
with a version in `{v+2, …, v+n}` (true whenever the spec's no-gap
invariant I2 holds), a successful publish of a non-empty batch appends
exactly the staged rows, whose versions are `v+1, …, v+n` in staging
order, all on the sender's aggregate, and `(aggregate, version)` remains
unique. -/
theorem c1_publish_versions_amended (s : Sender) (now : Nat) (store : Store)
    (hne : s.events ≠ [])
    (hnw : s.original_version + s.events.length < 65536)
    (hnd : (store.map fun e => (e.aggregate, e.version)).Nodup)
    (hgap : ∀ e ∈ store, e.aggregate = s.aggregate →
      ¬(s.original_version + 2 ≤ e.version ∧
        e.version ≤ s.original_version + s.events.length))
    (hfresh : ∀ e ∈ store, ∀ st ∈ s.events, e.id ≠ st.id)
    (hsucc : (s.send now store).1 = .ok ()) :
    (s.send now store).2 = store ++ s.rows now
    ∧ (((store ++ s.rows now).map fun e => (e.aggregate, e.version)).Nodup)
    ∧ (s.rows now).map Event.version =
        List.range' (s.original_version + 1) s.events.length
    ∧ (s.rows now).map Event.id = s.events.map StagedEvent.id
    ∧ ∀ r ∈ s.rows now, r.aggregate = s.aggregate := by
  obtain ⟨ev1, evrest, hev⟩ := List.exists_cons_of_ne_nil hne
  have hlenev : s.events.length = evrest.length + 1 := by rw [hev]; rfl
  have hmod : u16Mod (s.original_version + 1) = s.original_version + 1 :=
    Nat.mod_eq_of_lt (by omega)
  have hrows : s.rows now =
      (⟨ev1.id, ev1.name, s.aggregate, s.original_version + 1, ev1.data,
        ev1.metadata, "", none, now⟩ : Event) ::
        stageRows s.aggregate now (s.original_version + 1) evrest := by
    rw [Sender.rows, hev]
    simp only [stageRows, hmod]
  have hrestver : ∀ r ∈ stageRows s.aggregate now (s.original_version + 1) evrest,
      s.original_version + 2 ≤ r.version ∧
        r.version ≤ s.original_version + s.events.length := by
    intro r hr
    have hvmem : r.version ∈ List.range' (s.original_version + 2) evrest.length := by
      have := stageRows_versions s.aggregate now evrest (s.original_version + 1)
        (by omega)
      rw [← this]
      exact List.mem_map_of_mem _ hr
    have hb := List.mem_range'_1.mp hvmem
    omega
  by_cases hv1 : hasAggVersion store s.aggregate (s.original_version + 1) = true
  · -- a row already sits at (aggregate, v+1): the check must fail,
    -- contradicting success
    exfalso
    obtain ⟨X, hX, hXa, hXv⟩ := (hasAggVersion_iff _ _ _).mp hv1
    have hkept : keptRows store (s.rows now) =
        keptRows store (stageRows s.aggregate now (s.original_version + 1) evrest) := by
      rw [hrows]
      exact keptRows_cons_conflict store _ _ hv1
    have hstore2 : insertOnConflict store (s.rows now) =
        store ++ keptRows store (stageRows s.aggregate now (s.original_version + 1) evrest) := by
      rw [insertOnConflict_eq, hkept]
    have hfil2 : ((keptRows store
        (stageRows s.aggregate now (s.original_version + 1) evrest)).filter
          fun e => e.aggregate == s.aggregate && e.version == s.original_version + 1) = [] := by
      rw [List.filter_eq_nil_iff]
      intro r hr hp
      simp only [Bool.and_eq_true, beq_iff_eq] at hp
      have := hrestver r (keptRows_subset _ _ _ hr)
      omega
    have hfilX : X ∈ ((store ++ keptRows store
        (stageRows s.aggregate now (s.original_version + 1) evrest)).filter
          fun e => e.aggregate == s.aggregate && e.version == s.original_version + 1) := by
      rw [List.filter_append, hfil2, List.append_nil]
      exact List.mem_filter.mpr ⟨hX, by simp [hXa, hXv]⟩
    rcases selectNext_cases
        (store ++ keptRows store (stageRows s.aggregate now (s.original_version + 1) evrest))
        s.aggregate (s.original_version + 1) with hemp | ⟨x, hx, hxmem⟩
    · rw [hemp] at hfilX
      exact absurd hfilX (by simp)
    · have hxstore : x ∈ store := by
        rw [List.filter_append, hfil2, List.append_nil] at hxmem
        exact (List.mem_filter.mp hxmem).1
      have hxid : x.id ≠ ev1.id :=
        hfresh x hxstore ev1 (hev ▸ List.mem_cons_self _ _)
      have htx : s.sendTx now store = .error .invalidOriginalVersion := by
        simp only [Sender.sendTx, hstore2, hmod, hx, hev, List.head?_cons]
        simp [bne_iff_ne, hxid]
      rw [Sender.send, htx] at hsucc
      exact absurd hsucc (by simp)
  · -- no row at (aggregate, v+1): every staged row is inserted and the
    -- check passes
    have hnoconf : ∀ w, s.original_version + 1 ≤ w →
        w < s.original_version + 1 + s.events.length →
        hasAggVersion store s.aggregate w = false := by
      intro w h1 h2
      apply hasAggVersion_false_of
      intro e he hea hew
      rcases Nat.eq_or_lt_of_le h1 with heq | hlt
      · exact hv1 ((hasAggVersion_iff _ _ _).mpr ⟨e, he, hea, by omega⟩)
      · exact hgap e he hea ⟨by omega, by omega⟩
    have hconfrows : ∀ r ∈ s.rows now,
        hasAggVersion store r.aggregate r.version = false := by
      intro r hr
      rw [stageRows_agg s.aggregate now s.events s.original_version r hr]
      have hvmem : r.version ∈ List.range' (s.original_version + 1) s.events.length := by
        rw [← stageRows_versions s.aggregate now s.events s.original_version hnw]
        exact List.mem_map_of_mem _ hr
      have hb := List.mem_range'_1.mp hvmem
      exact hnoconf r.version hb.1 hb.2
    have hkept : keptRows store (s.rows now) = s.rows now :=
      keptRows_all _ store hconfrows
        (stageRows_pairs_nodup s.aggregate now s.events s.original_version hnw)
    have hstore2 : insertOnConflict store (s.rows now) = store ++ s.rows now := by
      rw [insertOnConflict_eq, hkept]
    have hfilstore : (store.filter
        fun e => e.aggregate == s.aggregate && e.version == s.original_version + 1) = [] := by
      rw [List.filter_eq_nil_iff]
      intro e he hp
      simp only [Bool.and_eq_true, beq_iff_eq] at hp
      have : hasAggVersion store s.aggregate (s.original_version + 1) = true :=
        (hasAggVersion_iff _ _ _).mpr ⟨e, he, hp.1, hp.2⟩
      exact hv1 this
    have hfilrest : ((stageRows s.aggregate now (s.original_version + 1) evrest).filter
        fun e => e.aggregate == s.aggregate && e.version == s.original_version + 1) = [] := by
      rw [List.filter_eq_nil_iff]
      intro r hr hp
      simp only [Bool.and_eq_true, beq_iff_eq] at hp
      have := hrestver r hr
      omega
    have hnext : selectNext (store ++ s.rows now) s.aggregate (s.original_version + 1) =
        some (⟨ev1.id, ev1.name, s.aggregate, s.original_version + 1, ev1.data,
          ev1.metadata, "", none, now⟩ : Event) := by
      rw [selectNext, List.filter_append, hfilstore, hrows]
      simp only [List.filter_cons, hfilrest]
      rw [if_pos (by simp)]
      rfl
    have htx : s.sendTx now store = .ok (store ++ s.rows now) := by
      simp only [Sender.sendTx, hstore2, hmod, hnext, hev, List.head?_cons]
      simp
    refine ⟨?_, ?_, ?_, ?_, ?_⟩
    · rw [Sender.send, htx]
    · rw [List.map_append]
      refine List.Nodup.append hnd
        (stageRows_pairs_nodup s.aggregate now s.events s.original_version hnw) ?_
      intro x hx1 hx2
      have hx2' := hx2
      rw [show ((s.rows now).map fun e => (e.aggregate, e.version)) =
          (List.range' (s.original_version + 1) s.events.length).map
            (fun w => (s.aggregate, w)) from
        stageRows_pairs s.aggregate now s.events s.original_version hnw] at hx2'
      obtain ⟨w, hw, hxw⟩ := List.mem_map.mp hx2'
      obtain ⟨e, he, hpe⟩ := List.mem_map.mp hx1
      have hb := List.mem_range'_1.mp hw
      have hea : e.aggregate = s.aggregate := by
        have := hpe.trans hxw.symm
        exact (Prod.mk.injEq _ _ _ _).mp this |>.1
      have hew : e.version = w := by
        have := hpe.trans hxw.symm
        exact (Prod.mk.injEq _ _ _ _).mp this |>.2
      have := hnoconf w hb.1 hb.2
      exact absurd ((hasAggVersion_iff _ _ _).mpr ⟨e, he, hea, hew⟩) (by simp [this])
    · exact stageRows_versions s.aggregate now s.events s.original_version hnw
    · exact stageRows_ids s.aggregate now s.events s.original_version
    · intro r hr
      exact stageRows_agg s.aggregate now s.events s.original_version r hr

/-- Witness for the amended C1 theorem at a concrete instance. -/
theorem c1_publish_versions_witness :
    ((Sender.mk "a" 0 [⟨"e1", "T", [], none⟩]).send 7 []).1 = .ok () ∧
      ((Sender.mk "a" 0 [⟨"e1", "T", [], none⟩]).send 7 []).2 =
        [] ++ (Sender.mk "a" 0 [⟨"e1", "T", [], none⟩]).rows 7 := by
  refine ⟨by decide, ?_⟩
  exact (c1_publish_versions_amended (Sender.mk "a" 0 [⟨"e1", "T", [], none⟩]) 7 []
    (by decide) (by decide) (by decide) (by simp) (by simp) (by decide)).1

/-! ## C2 -/

/-- C2: when `Sender::send` returns `InvalidOriginalVersion` the
transaction is rolled back: the visible event table is exactly the one
from before the call and (the staged ids being fresh ULIDs) none of the
batch's staged events is visible in it. -/
theorem c2_rollback_atomicity (s : Sender) (now : Nat) (store : Store)
    (hfresh : ∀ e ∈ store, ∀ st ∈ s.events, e.id ≠ st.id)
    (herr : (s.send now store).1 = .error .invalidOriginalVersion) :
    (s.send now store).2 = store
    ∧ ∀ e ∈ (s.send now store).2, ∀ st ∈ s.events, e.id ≠ st.id := by
  cases htx : s.sendTx now store with
  | ok st =>
    exfalso
    rw [Sender.send, htx] at herr
    exact absurd herr (by simp)
  | error err =>
    have h2 : (s.send now store).2 = store := by rw [Sender.send, htx]
    exact ⟨h2, by rw [h2]; exact hfresh⟩

/-- Witness for C2 at a concrete losing publish. -/
theorem c2_rollback_witness :
    ((Sender.mk "a" 0 [⟨"e1", "T", [], none⟩]).send 9 [eBlock]).1 =
        .error .invalidOriginalVersion
    ∧ ((Sender.mk "a" 0 [⟨"e1", "T", [], none⟩]).send 9 [eBlock]).2 = [eBlock] := by
  refine ⟨by decide, ?_⟩
  exact (c2_rollback_atomicity (Sender.mk "a" 0 [⟨"e1", "T", [], none⟩]) 9 [eBlock]
    (by decide) (by decide)).1

/-! ## C3 -/

/-- C3: the emitted keyset predicate is NOT the claimed strict
lexicographic expression.  The recursive arm of `build_cursor_expr`
splices the nested disjunction in without parentheses, so for the Event
keys the emitted text (first conjunct) differs from the claimed text
(second conjunct), and under SQL precedence (`AND` binds tighter than
`OR`) it admits a row that is lexicographically before the cursor: `eOld`
has `timestamp 1 < 9` yet satisfies the predicate through its dangling
`version = $3 AND id > $4` disjunct, while the strict lexicographic
comparison rejects it. -/
theorem c3_keyset_predicate_code_bug :
    buildCursorExpr .Asc false eventKeys 2 =
      "timestamp > $2 OR (timestamp = $2 AND version > $3 OR (version = $3 AND id > $4))"
    ∧ buildCursorExpr .Asc false eventKeys 2 ≠
      "timestamp > $2 OR (timestamp = $2 AND (version > $3 OR (version = $3 AND id > $4)))"
    ∧ cursorPred .Asc false 1 ⟨"A", 5, 9⟩ eOld = true
    ∧ strictLexAfter ⟨"A", 5, 9⟩ eOld = false := by
  refine ⟨by decide, by decide, by decide, by decide⟩

/-! ## C4 -/

/-- C4 (counterexample): at the largest u16 limit, 65535, the emitted SQL
ends in `LIMIT 0` — the u16 wrap of 65536 — not in `LIMIT 65536` as the
claim's `LIMIT l + 1` requires (a checked build panics on the overflow
instead, so no SQL is produced at all). -/
theorem c4_limit_counterexample :
    strEndsWith (buildSql "SELECT * FROM event" .Asc argsFirstMax eventKeys 0)
      "LIMIT 65536" = false
    ∧ strEndsWith (buildSql "SELECT * FROM event" .Asc argsFirstMax eventKeys 0)
      "LIMIT 0" = true
    ∧ (chosen argsFirstMax).1 = 65535 := by
  refine ⟨by decide, by decide, by decide⟩

/-- C4 (amended): for limits below 65535 the SQL ends with
`LIMIT (l + 1)`; and on the fetched rows (at most `l + 1` of them by that
LIMIT) the post-processing drops exactly the last fetched row when more
than `l` came back, returns at most `l` edges and raises the overshoot
flag (`has_next_page` forward, `has_previous_page` backward), and keeps
every row with the flag down otherwise. -/
theorem c4_limit_overshoot_amended (baseSql : String) (order : Order) (a : Args)
    (argc : Nat) (rows : List Event)
    (hl : (chosen a).1 < 65535)
    (hr : rows.length ≤ (chosen a).1 + 1) :
    buildSql baseSql order a eventKeys argc =
      buildSqlPre baseSql order a eventKeys argc ++ " LIMIT " ++
        Nat.repr ((chosen a).1 + 1)
    ∧ ((chosen a).1 < rows.length →
        (queryPost (isBackwardArgs a) (chosen a).1 rows).edges.map Edge.node =
          (if isBackwardArgs a then rows.dropLast.reverse else rows.dropLast)
        ∧ (queryPost (isBackwardArgs a) (chosen a).1 rows).edges.length ≤ (chosen a).1
        ∧ hasMoreFlag (isBackwardArgs a)
            (queryPost (isBackwardArgs a) (chosen a).1 rows) = true)
    ∧ (rows.length ≤ (chosen a).1 →
        (queryPost (isBackwardArgs a) (chosen a).1 rows).edges.map Edge.node =
          (if isBackwardArgs a then rows.reverse else rows)
        ∧ hasMoreFlag (isBackwardArgs a)
            (queryPost (isBackwardArgs a) (chosen a).1 rows) = false) := by
  refine ⟨?_, ?_, ?_⟩
  · have : u16Mod ((chosen a).1 + 1) = (chosen a).1 + 1 :=
      Nat.mod_eq_of_lt (by omega)
    rw [buildSql, this]
  · intro hm
    have hmore : decide ((chosen a).1 < rows.length) = true := by simp [hm]
    refine ⟨?_, ?_, ?_⟩
    · cases hb : isBackwardArgs a <;>
        simp [queryPost, hmore, hb, List.map_map, Function.comp_def, List.map_reverse]
    · cases hb : isBackwardArgs a <;>
        simp [queryPost, hmore, hb, List.length_reverse, List.length_map,
          List.length_dropLast] <;> omega
    · cases hb : isBackwardArgs a <;> simp [queryPost, hasMoreFlag, hmore, hb]
  · intro hm
    have hmore : decide ((chosen a).1 < rows.length) = false := by
      simp [Nat.not_lt.mpr hm]
    refine ⟨?_, ?_⟩
    · cases hb : isBackwardArgs a <;>
        simp [queryPost, hmore, hb, List.map_map, Function.comp_def, List.map_reverse]
    · cases hb : isBackwardArgs a <;> simp [queryPost, hasMoreFlag, hmore, hb]

/-- Witness for the amended C4 theorem at a concrete instance. -/
theorem c4_limit_overshoot_witness :
    (chosen (Args.mk (some 1) none none none)).1 < 65535
    ∧ buildSql "SELECT * FROM event" .Asc (Args.mk (some 1) none none none)
        eventKeys 0 =
      buildSqlPre "SELECT * FROM event" .Asc (Args.mk (some 1) none none none)
        eventKeys 0 ++ " LIMIT " ++ Nat.repr 2
    ∧ hasMoreFlag (isBackwardArgs (Args.mk (some 1) none none none))
        (queryPost (isBackwardArgs (Args.mk (some 1) none none none)) 1
          [eOld, eTail]) = true := by
  refine ⟨by decide, ?_, ?_⟩
  · exact (c4_limit_overshoot_amended "SELECT * FROM event" .Asc
      (Args.mk (some 1) none none none) 0 [eOld, eTail] (by decide) (by decide)).1
  · exact ((c4_limit_overshoot_amended "SELECT * FROM event" .Asc
      (Args.mk (some 1) none none none) 0 [eOld, eTail] (by decide)
      (by decide)).2.1 (by decide)).2.2

/-! ## C5 -/

/-- C5: the engine treats a query as backward exactly when `last` or
`before` is set while `first` and `after` are both unset; the effective
pair is `(last, before)` backward and `(first, after)` forward; a missing
limit argument defaults to 40. -/
theorem c5_direction_selection (a : Args) :
    (isBackwardArgs a = true ↔
      ((a.last.isSome = true ∨ a.before.isSome = true) ∧
        a.first = none ∧ a.after = none))
    ∧ (isBackwardArgs a = true → chosen a = (a.last.getD 40, a.before))
    ∧ (isBackwardArgs a = false → chosen a = (a.first.getD 40, a.after))
    ∧ (isBackwardArgs a = true → a.last = none → (chosen a).1 = 40)
    ∧ (isBackwardArgs a = false → a.first = none → (chosen a).1 = 40) := by
  obtain ⟨f, aft, l, b⟩ := a
  refine ⟨?_, ?_, ?_, ?_, ?_⟩ <;>
    cases f <;> cases aft <;> cases l <;> cases b <;>
      simp [isBackwardArgs, chosen]

/-- Witness for C5 at a concrete backward query. -/
theorem c5_direction_selection_witness :
    isBackwardArgs (Args.mk none none (some 5) none) = true
    ∧ chosen (Args.mk none none (some 5) none) =
        ((Args.mk none none (some 5) none).last.getD 40,
          (Args.mk none none (some 5) none).before) := by
  refine ⟨by decide, ?_⟩
  exact (c5_direction_selection (Args.mk none none (some 5) none)).2.1 (by decide)

/-! ## C6 -/

/-- C6 (counterexample): the cursor of a concrete event is the base64url
text of a CBOR map `{"i": id, "v": version, "t": timestamp}`, not of the
claimed tuple `(timestamp, version, id)` — the two encodings differ. -/
theorem c6_cursor_format_counterexample :
    Event.toCursor eTail ≠ specTupleCursor eTail
    ∧ Event.toCursor eTail = "o2FpYUFhdgVhdAk="
    ∧ specTupleCursor eTail = "gwkFYUE=" := by
  refine ⟨by decide, by decide, by decide⟩

/-- C6 (amended): the cursor is the base64url encoding, with standard
padding, of the CBOR map of the `EventCursor` struct — header `0xA3`,
then the pairs `"i" ↦ id`, `"v" ↦ version`, `"t" ↦ timestamp` in that
field order; the engine's own `bind_cursor` decoding pipeline inverts it. -/
theorem c6_cursor_format_amended :
    (∀ e : Event, Event.toCursor e =
      base64urlPad ([163] ++ cborText "i" ++ cborText e.id ++ cborText "v" ++
        cborUInt e.version ++ cborText "t" ++ cborUInt e.timestamp))
    ∧ decodeCursor (Event.toCursor eTail) = some eTail.serializeCursor := by
  exact ⟨fun e => rfl, by decide⟩

/-! ## C7 -/

/-- C7: `Event::to_data::<T>` returns `Ok(None)` without touching the
bytes when the stored name differs from the requested type identifier;
when the names agree it returns whatever the payload decoder yields; a
`Some` result forces name equality, and an error arises only from the
decoder, i.e. only on malformed bytes. -/
theorem c7_to_data_name_guard {α : Type} (dec : List Nat → Except Unit (Option α))
    (tyName : String) (e : Event) :
    (e.name ≠ tyName → toData dec tyName e = .ok none)
    ∧ (∀ v : α, e.name = tyName → dec e.data = .ok (some v) →
        toData dec tyName e = .ok (some v))
    ∧ (∀ v : α, toData dec tyName e = .ok (some v) →
        e.name = tyName ∧ dec e.data = .ok (some v))
    ∧ (∀ err : Unit, toData dec tyName e = .error err →
        e.name = tyName ∧ dec e.data = .error err) := by
  by_cases h : e.name = tyName
  · have hd : toData dec tyName e = dec e.data := by simp [toData, h]
    refine ⟨fun hn => absurd h hn, fun v _ hdec => by rw [hd, hdec],
      fun v hv => ⟨h, by rw [← hd]; exact hv⟩,
      fun err herr => ⟨h, by rw [← hd]; exact herr⟩⟩
  · have hd : toData dec tyName e = .ok none := by simp [toData, h]
    refine ⟨fun _ => hd, fun v hv _ => absurd hv h,
      fun v hv => absurd (hd ▸ hv) (by simp),
      fun err herr => absurd (hd ▸ herr) (by simp)⟩

/-- Witness for C7 at a matching name and a successful decoder. -/
theorem c7_to_data_witness :
    eOld.name = "n"
    ∧ toData (fun _ => Except.ok (some (7 : Nat))) "n" eOld = .ok (some 7) :=
  ⟨rfl, (c7_to_data_name_guard (fun _ => Except.ok (some (7 : Nat))) "n" eOld).2.1
    7 rfl rfl⟩

/-! ## C8 -/

/-- C8: a persistent stream's poll iteration first re-reads its consumer
row; whenever no row carries the stream's own `(id, worker_id)` any more
(for instance after a second attach overwrote `worker_id`), the iteration
ends the stream — for every event-table content, so no further event is
delivered. -/
theorem c8_fence_terminates (ctx : StreamCtx) (w : String) (cursor : Option String)
    (consumers : List ConsumerRow) (events : List Event)
    (hw : ctx.worker_id = some w)
    (hlost : (consumers.find? fun c => c.id == ctx.id && c.worker_id == w) = none) :
    pollStep ctx cursor consumers events = .terminated := by
  simp [pollStep, hw, hlost]

/-- Witness for C8: a consumer row rewritten to worker `w2` fences out
the stream attached as worker `w1`. -/
theorem c8_fence_witness :
    (([ConsumerRow.mk "c1" "w2" none ""]).find?
        fun c => c.id == "c1" && c.worker_id == "w1") = none
    ∧ pollStep (StreamCtx.mk "c1" (some "w1") none "user") none
        [ConsumerRow.mk "c1" "w2" none ""] [eOld] = .terminated := by
  refine ⟨by decide, ?_⟩
  exact c8_fence_terminates (StreamCtx.mk "c1" (some "w1") none "user") "w1" none
    [ConsumerRow.mk "c1" "w2" none ""] [eOld] rfl (by decide)

/-! ## C9 -/

/-- C9: with the log `[eOld, eTail]` the non-persistent attach reads the
tail cursor of `eTail` (the maximal event), yet the very first poll
delivers `eOld`, an event strictly BEFORE the tail in log order —
`ON (timestamp, version, id)` keyset comparison is broken by the
unparenthesized predicate (see C3), whose dangling
`version = $3 AND id > $4` disjunct matches `eOld`.  The spec's P7
("no event whose cursor is ≤ the log tail at attach time is ever
delivered") is violated by the code. -/
theorem c9_non_persistent_code_bug :
    attachNonPersistent [eOld, eTail] = some (some eTail.toCursor)
    ∧ pollStep ctxNP (some eTail.toCursor) [] [eOld, eTail] =
        .yield (Edge.mk eOld.toCursor eOld) (some eOld.toCursor)
    ∧ keyLt eOld eTail = true := by
  refine ⟨by decide, by decide, by decide⟩

/-! ## C10 -/

/-- C10 (counterexample): `ack` with a cursor strictly earlier in log
order than the stored one simply overwrites it — the checkpoint moves
backwards. -/
theorem c10_ack_counterexample :
    ack "c1" eOld.toCursor "d1" [ConsumerRow.mk "c1" "w" (some eTail.toCursor) "d0"] =
      [ConsumerRow.mk "c1" "w" (some eOld.toCursor) "d1"]
    ∧ cursorLogLt eOld.toCursor eTail.toCursor = true := by
  refine ⟨by decide, by decide⟩

/-- C10 (amended): `Consumer::ack` unconditionally overwrites the stored
cursor of the row with the given id (and refreshes `updated_at`); no
monotonicity comparison is performed, so the checkpoint only advances
when callers supply non-decreasing cursors. -/
theorem c10_ack_overwrites_amended (id v now : String) (cs : List ConsumerRow)
    (c : ConsumerRow)
    (hfind : cs.find? (fun r => r.id == id) = some c) :
    (ack id v now cs).find? (fun r => r.id == id) =
      some { c with cursor := some v, updated_at := now } := by
  induction cs with
  | nil => simp at hfind
  | cons r rs ih =>
    by_cases h : (r.id == id) = true
    · have hc : c = r := by
        rw [@List.find?_cons_of_pos _ (fun x : ConsumerRow => x.id == id) r rs h] at hfind
        exact (Option.some.inj hfind).symm
      subst hc
      simp only [ack, List.map_cons]
      rw [if_pos h]
      exact @List.find?_cons_of_pos _ (fun x : ConsumerRow => x.id == id) _ _ h
    · rw [@List.find?_cons_of_neg _ (fun x : ConsumerRow => x.id == id) r rs h] at hfind
      simp only [ack, List.map_cons]
      rw [if_neg h, @List.find?_cons_of_neg _ (fun x : ConsumerRow => x.id == id) r _ h]
      exact ih hfind

/-- Witness for the amended C10 theorem at a concrete table. -/
theorem c10_ack_overwrites_witness :
    [ConsumerRow.mk "c1" "w" none "d0"].find? (fun r => r.id == "c1") =
      some (ConsumerRow.mk "c1" "w" none "d0")
    ∧ (ack "c1" "cur" "d1" [ConsumerRow.mk "c1" "w" none "d0"]).find?
        (fun r => r.id == "c1") = some (ConsumerRow.mk "c1" "w" (some "cur") "d1") := by
  refine ⟨by decide, ?_⟩
  exact c10_ack_overwrites_amended "c1" "cur" "d1" [ConsumerRow.mk "c1" "w" none "d0"]
    (ConsumerRow.mk "c1" "w" none "d0") (by decide)

end Madevent
